/-
Verification of the orchestration engine of the `linkedin_job_scraper`
repository, shallowly embedded in Lean 4.

Strings are modelled as `List Char`.  Browser, page and network effects are
modelled by explicit environment records that list the observations the code
makes (element texts, page heights, per-operation success flags); the
JavaScript functions are translated statement by statement into pure Lean
functions over those environments.
-/
import Mathlib

namespace Scraper

/-- Strings of the JavaScript program, modelled as lists of characters. -/
abbrev Str := List Char

/-- Coercion helper from Lean string literals. -/
def str (s : String) : Str := s.toList

/-! ### JavaScript string primitives used by the source -/

/-- Model of "the list starts with `p`" (used to scan for substring and
regex-literal occurrences). -/
def isPre : Str → Str → Bool
  | [], _ => true
  | _ :: _, [] => false
  | a :: as, b :: bs => a == b && isPre as bs

/-- Model of JavaScript `hay.includes(needle)`: scans every position of
`hay` for an occurrence of `needle`. -/
def hasSub (needle : Str) : Str → Bool
  | [] => isPre needle []
  | c :: rest => isPre needle (c :: rest) || hasSub needle rest

/-- Model of JavaScript `s.split(sep)` for a one-character separator. -/
def jsSplit (sep : Char) : Str → List Str
  | [] => [[]]
  | c :: rest =>
    if c = sep then [] :: jsSplit sep rest
    else
      match jsSplit sep rest with
      | [] => [[c]]
      | h :: t => (c :: h) :: t

/-- Model of `s.split(sep).pop()` (the array is never empty, so `pop`
returns its last element). -/
def splitPop (sep : Char) (s : Str) : Str := (jsSplit sep s).getLastD []

/-! ### Identifier extraction (`extractLinkedInId` in
`src/services/universal-scraper.js`, `extractId` in the LinkedIn
extractor) -/

/-- The entity-URN marker tested by the first `includes` check. -/
def urnMarker : Str := str "urn:li:jobPosting:"

/-- The literal path segment of the regex `/\/jobs\/view\/(\d+)/`. -/
def jobsViewLit : Str := str "/jobs/view/"

/-- Model of `urlOrUrn.match(/\/jobs\/view\/(\d+)/)`: leftmost position
where the literal `/jobs/view/` is followed by at least one digit; the
capture group takes the maximal digit run (greedy `\d+`). -/
def jobsViewMatch : Str → Option Str
  | [] => none
  | c :: rest =>
    if isPre jobsViewLit (c :: rest) then
      let after := (c :: rest).drop jobsViewLit.length
      let d := after.takeWhile Char.isDigit
      if d.isEmpty then jobsViewMatch rest else some d
    else jobsViewMatch rest

/-- Translation of `extractLinkedInId` (universal-scraper.js lines 232-242);
`extractId` of the LinkedIn extractor is the identical function. -/
def extractLinkedInId (urlOrUrn : Str) : Option Str :=
  if hasSub urnMarker urlOrUrn then
    some (splitPop ':' urlOrUrn)
  else if hasSub jobsViewLit urlOrUrn then
    jobsViewMatch urlOrUrn
  else
    none

/-! ### Deduplication (`deduplicateItems` in the unnamed module,
`deduplicateJobs` in `deduplicate.js`) -/

/-- A row as consumed by `deduplicateItems`: only the `id` field is read;
`payload` stands for the remaining fields of the object. -/
structure DedupItem where
  id : Str
  payload : Str
deriving DecidableEq

/-- A row as consumed by `deduplicateJobs` (field named `jobId`). -/
structure JobRow where
  jobId : Str
  payload : Str
deriving DecidableEq

/-- Translation of `deduplicateItems` (unnamed module lines 8-21): build the
set of existing ids, keep the scraped items whose id is not in it.  The
JavaScript `Set` membership test is exact string equality, modelled by list
membership over the mapped ids. -/
def deduplicateItems (scrapedItems existingItems : List DedupItem) : List DedupItem :=
  let existingItemIds := existingItems.map (·.id)
  scrapedItems.filter (fun item => !(existingItemIds.contains item.id))

/-- Translation of `deduplicateJobs` (deduplicate.js lines 8-21): identical
logic with the id field named `jobId`. -/
def deduplicateJobs (scrapedJobs existingJobs : List JobRow) : List JobRow :=
  let existingJobIds := existingJobs.map (·.jobId)
  scrapedJobs.filter (fun job => !(existingJobIds.contains job.jobId))

/-! ### The record data model (`extractLinkedInBasicData` output shape) -/

/-- The `source` sub-object of a record. -/
structure SourceMeta where
  platform : Str
  typ : Str
  category : Str
deriving DecidableEq

/-- The `organization` sub-object; `url` is the company link href, which the
code leaves `null` when the link element is absent. -/
structure Organization where
  name : Str
  url : Option Str
  id : Str
deriving DecidableEq

/-- The `details` sub-object.  The basic record carries only `postedTime`;
the six enrichment keys are absent (`none`) until the detailed view fills
them in, always as strings (possibly empty). -/
structure RecDetails where
  postedTime : Str
  contractType : Option Str
  experienceLevel : Option Str
  workType : Option Str
  industry : Option Str
  applicationsCount : Option Str
  salary : Option Str
deriving DecidableEq

/-- One scraped record in the standardized structure returned by
`extractLinkedInBasicData`.  `id` is `none` when `extractLinkedInId`
resolved no identifier, and `publishedAt` is `none` when the `datetime`
attribute was missing. -/
structure Record where
  id : Option Str
  title : Str
  url : Str
  description : Str
  location : Str
  publishedAt : Option Str
  scrapedAt : Str
  source : SourceMeta
  organization : Organization
  details : RecDetails
deriving DecidableEq

/-- Default record used only as the `getD` fallback when reading an index
that is in range. -/
def emptyRecord : Record :=
  { id := none, title := [], url := [], description := [], location := []
    publishedAt := none, scrapedAt := []
    source := { platform := [], typ := [], category := [] }
    organization := { name := [], url := none, id := [] }
    details := { postedTime := [], contractType := none, experienceLevel := none
                 workType := none, industry := none, applicationsCount := none
                 salary := none } }

/-! ### Detail enrichment (`extractLinkedInDetailedData`) -/

/-- What the detail page presents to the extractor.  `fails` is true when
any navigation, timeout or element operation in the `try` block throws; the
`try` block never mutates its input, so a single flag captures every error
point.  The remaining fields are the element texts the success path reads
(`none` models a missing element). -/
structure DetailEnv where
  fails : Bool
  description : Option Str
  criteria : List (Option Str × Option Str)
  workplace : List Str
  applications : Option Str
  salary : Option Str

/-- One pass of the `.job-criteria-item` loop: skip pairs with a missing
header or value element, otherwise dispatch on the header keyword.  The
accumulator is (contractType, experienceLevel, industry). -/
def criteriaStep (acc : Str × Str × Str) (item : Option Str × Option Str) :
    Str × Str × Str :=
  match item with
  | (none, _) => acc
  | (_, none) => acc
  | (some headerText, some valueText) =>
    let (ct, el, ind) := acc
    if hasSub (str "Seniority level") headerText then (ct, valueText, ind)
    else if hasSub (str "Employment type") headerText then (valueText, el, ind)
    else if hasSub (str "Industry") headerText then (ct, el, valueText)
    else acc

/-- The whole criteria loop, starting from three empty strings. -/
def criteriaFold (items : List (Option Str × Option Str)) : Str × Str × Str :=
  items.foldl criteriaStep ([], [], [])

/-- Model of JavaScript `String.prototype.trim`. -/
def jsTrim (s : Str) : Str :=
  ((s.dropWhile Char.isWhitespace).reverse.dropWhile Char.isWhitespace).reverse

/-- The `.job-detail-location-metadata` loop: the first text containing one
of the three workplace markers wins (scanning stops), trimmed; otherwise the
`workType` stays empty. -/
def findWorkType : List Str → Str
  | [] => []
  | t :: rest =>
    if hasSub (str "Remote") t || hasSub (str "On-site") t ||
        hasSub (str "Hybrid") t then jsTrim t
    else findWorkType rest

/-- Model of `url.match(/\/company\/([^\/]+)/)`: leftmost occurrence of the
literal `/company/` followed by at least one non-slash character; the
capture group takes the maximal non-slash run. -/
def companyMatch : Str → Option Str
  | [] => none
  | c :: rest =>
    if isPre (str "/company/") (c :: rest) then
      let seg := ((c :: rest).drop (str "/company/").length).takeWhile (· ≠ '/')
      if seg.isEmpty then companyMatch rest else some seg
    else companyMatch rest

/-- The company-id block: JavaScript truthiness makes both `null` and the
empty string skip the match. -/
def companyIdOf (orgUrl : Option Str) : Str :=
  match orgUrl with
  | none => []
  | some u => if u = [] then [] else (companyMatch u).getD []

/-- Translation of `extractLinkedInDetailedData` (universal-scraper.js lines
249-364).  On any error the `catch` clause returns the untouched
`basicData`; on success a new record is built by spreading `basicData` and
overwriting `description`, `organization.id` and the six detail keys. -/
def extractLinkedInDetailedData (env : DetailEnv) (basicData : Record) : Record :=
  if env.fails then basicData
  else
    let (contractType, experienceLevel, industry) := criteriaFold env.criteria
    let workType := findWorkType env.workplace
    let applicationsCount := env.applications.getD []
    let salary := env.salary.getD []
    let companyId := companyIdOf basicData.organization.url
    { basicData with
      description := env.description.getD []
      organization := { basicData.organization with id := companyId }
      details := { basicData.details with
                   contractType := some contractType
                   experienceLevel := some experienceLevel
                   workType := some workType
                   industry := some industry
                   applicationsCount := some applicationsCount
                   salary := some salary } }

/-- Translation of the `extractDetailedData` dispatcher (universal-scraper.js
lines 389-399): platforms without a detailed extractor fall through to the
basic record. -/
def extractDetailedData (env : DetailEnv) (basicData : Record) : Record :=
  if basicData.source.platform = str "linkedin" then
    extractLinkedInDetailedData env basicData
  else basicData

/-! ### Platform detection (`detectPlatform`) -/

/-- The platforms registered in `this.platformPatterns` of the universal
scraper, in insertion order. -/
inductive Platform where
  | linkedin
  | indeed
deriving DecidableEq

/-- Model of `urlPattern.test(url)` for the case-insensitive literal
patterns `/linkedin\.com/i` and `/indeed\.com/i`: unanchored substring
search over the case-folded url. -/
def patternTest (pat : Str) (url : Str) : Bool :=
  hasSub pat (url.map Char.toLower)

/-- The registration-ordered pattern table (`Object.entries` iterates in
insertion order). -/
def platformPatterns : List (Platform × Str) :=
  [(Platform.linkedin, str "linkedin.com"), (Platform.indeed, str "indeed.com")]

/-- Translation of `detectPlatform` (universal-scraper.js lines 76-85):
first matching pattern wins, no match gives `null`. -/
def detectPlatform (url : Str) : Option Platform :=
  (platformPatterns.find? (fun e => patternTest e.2 url)).map (·.1)

/-! ### Basic extraction from a listing card (`extractLinkedInBasicData`) -/

/-- What one rendered job card presents to the extractor.  An outer `none`
models a missing element (whose dereference throws inside the `try` block);
an inner `none` models a `null` attribute value. -/
structure Card where
  linkHref : Option (Option Str)
  linkText : Str
  companyText : Option Str
  companyHref : Option Str
  locationText : Option Str
  timeText : Option Str
  timeDatetime : Option Str

/-- Translation of `extractLinkedInBasicData` (universal-scraper.js lines
161-225).  The link, company, location and time elements are required: a
missing one (or a `null` href, on which `extractLinkedInId` would call
`includes`) throws, the `catch` logs and returns `null`, and the caller
drops the card.  `now` abstracts `new Date().toISOString()` and `category`
is `options.category || ""`. -/
def extractLinkedInBasicData (now category : Str) (card : Card) : Option Record :=
  match card.linkHref, card.companyText, card.locationText, card.timeText with
  | some (some itemUrl), some companyName, some location, some postedTime =>
    some { id := extractLinkedInId itemUrl
           title := card.linkText
           url := itemUrl
           description := []
           location := location
           publishedAt := card.timeDatetime
           scrapedAt := now
           source := { platform := str "linkedin", typ := str "job", category := category }
           organization := { name := companyName, url := card.companyHref, id := [] }
           details := { postedTime := postedTime, contractType := none
                        experienceLevel := none, workType := none, industry := none
                        applicationsCount := none, salary := none } }
  | _, _, _, _ => none

/-- Translation of the `extractBasicData` dispatcher (universal-scraper.js
lines 373-382): only the linkedin case has an extractor, the default warns
and returns `null`. -/
def extractBasicData (platform : Platform) (now category : Str) (card : Card) :
    Option Record :=
  match platform with
  | Platform.linkedin => extractLinkedInBasicData now category card
  | Platform.indeed => none

/-! ### Scraping one URL (`scrapeFromUrl`) -/

/-- The configuration values read from `config.scraper` plus the `options`
argument. -/
structure Config where
  maxItemsPerUrl : Nat
  totalItemsLimit : Nat
  concurrencyLimit : Nat
  detailed : Bool
  category : Str

/-- The environment of one `scrapeFromUrl` call.  `newPageOk` is the
`context.newPage()` call (outside the `try`, so its failure propagates);
`navOk` covers `goto`, `waitForSelector` and the scroll loop (inside the
`try`, so their failure yields the empty batch); `cards` are the item
handles found after scrolling; `detailEnv i` is the detail page seen by the
i-th enrichment task and `schedule` is the order in which the concurrent
enrichment tasks complete. -/
structure UrlEnv where
  newPageOk : Bool
  navOk : Bool
  now : Str
  cards : List Card
  detailEnv : Nat → DetailEnv
  schedule : List Nat

/-- Positional reassembly performed by `Promise.all`: the j-th slot of the
result takes the value of the task with index j, regardless of where that
task sits in the completion sequence `evs`. -/
def assemble (n : Nat) (evs : List (Nat × Record)) (dflt : Record) : List Record :=
  (List.range n).map (fun j => ((evs.find? (fun e => e.1 == j)).map Prod.snd).getD dflt)

/-- The basic records extracted sequentially from the first
`maxItemsPerUrl` cards (cards whose extraction returned `null` are
dropped). -/
def basicsOf (cfg : Config) (env : UrlEnv) (platform : Platform) : List Record :=
  (env.cards.take cfg.maxItemsPerUrl).filterMap
    (extractBasicData platform env.now cfg.category)

/-- Translation of `scrapeFromUrl` (universal-scraper.js lines 407-473).
An unsupported url returns `[]` before any page is opened; a `newPage`
failure propagates (`Except.error`); navigation or selector failure is
caught inside and yields `[]`; otherwise the basic records are enriched
concurrently (`options.detailed !== false`) and reassembled positionally by
`Promise.all`, or returned as they are.  The completion order of the
enrichment tasks is the `schedule` of the environment. -/
def scrapeFromUrl (cfg : Config) (env : UrlEnv) (url : Str) :
    Except Unit (List Record) :=
  match detectPlatform url with
  | none => Except.ok []
  | some platform =>
    if !env.newPageOk then Except.error ()
    else if !env.navOk then Except.ok []
    else
      let basics := basicsOf cfg env platform
      if cfg.detailed then
        let evs := env.schedule.map
          (fun i => (i, extractDetailedData (env.detailEnv i) (basics.getD i emptyRecord)))
        Except.ok (assemble basics.length evs emptyRecord)
      else Except.ok basics

/-! ### Scraping many URLs (`scrapeMultipleUrls`) -/

/-- Outcome of `initBrowser` (universal-scraper.js lines 38-59):
`chromium.launch` can fail before `this.browser` is assigned, and
`newContext`/`route` can fail after the launch succeeded, leaving
`this.browser` set but `this.context` null. -/
inductive InitOutcome where
  | ok
  | launchFail
  | contextFail
deriving DecidableEq

/-- The environment of one `scrapeMultipleUrls` call: the `initBrowser`
outcome and the environment of the i-th URL iteration. -/
structure MultiEnv where
  init : InitOutcome
  urlEnvs : Nat → UrlEnv

/-- The observable outcome of a `scrapeMultipleUrls` call: the returned (or
thrown) value, whether the `finally` cleanup block executed, and the
post-call values of `this.browser` and `this.context` (`true` = still
holding an open resource). -/
structure MultiResult where
  result : Except Unit (List Record)
  cleanupRan : Bool
  browserOpen : Bool
  contextSet : Bool

/-- The `for (const url of urls)` loop of `scrapeMultipleUrls` (lines
493-506).  `i` numbers the iterations for the environment.  A throwing
iteration is caught by the surrounding `catch`, which falls through to the
accumulated items; after a successful iteration the running total is
checked against `totalItemsLimit` and the accumulator truncated to exactly
the limit when reached. -/
def scrapeLoop (cfg : Config) (menv : MultiEnv) :
    List Str → Nat → List Record → List Record
  | [], _, allItems => allItems
  | url :: rest, i, allItems =>
    match scrapeFromUrl cfg (menv.urlEnvs i) url with
    | Except.error _ => allItems
    | Except.ok items =>
      let acc := allItems ++ items
      if cfg.totalItemsLimit ≤ acc.length then acc.take cfg.totalItemsLimit
      else scrapeLoop cfg menv rest (i + 1) acc

/-- Translation of `scrapeMultipleUrls` (universal-scraper.js lines
481-520).  `browserAlready` is whether `this.browser` was already set on
entry (the `if (!this.browser)` guard).  `initBrowser` runs before the
`try`, so its failures propagate without executing the `finally` cleanup;
once the loop is entered, the `catch` swallows every error and the
`finally` closes the browser and nulls both references. -/
def scrapeMultipleUrls (cfg : Config) (menv : MultiEnv) (browserAlready : Bool)
    (urls : List Str) : MultiResult :=
  if browserAlready then
    { result := Except.ok (scrapeLoop cfg menv urls 0 [])
      cleanupRan := true, browserOpen := false, contextSet := false }
  else
    match menv.init with
    | InitOutcome.launchFail =>
      { result := Except.error (), cleanupRan := false
        browserOpen := false, contextSet := false }
    | InitOutcome.contextFail =>
      { result := Except.error (), cleanupRan := false
        browserOpen := true, contextSet := false }
    | InitOutcome.ok =>
      { result := Except.ok (scrapeLoop cfg menv urls 0 [])
        cleanupRan := true, browserOpen := false, contextSet := false }

/-! ### The scroll loop (`scrollToLoadMore`) -/

/-- What one check of the page observes: the current `scrollHeight` and
whether the platform-specific "load more / next page" control is present
and visible. -/
structure ScrollObs where
  height : Nat
  buttonVisible : Bool

/-- The `maxScrollAttempts` constant of `scrollToLoadMore`. -/
def maxScrollAttempts : Nat := 20

/-- Translation of the `while` loop of `scrollToLoadMore` (universal-
scraper.js lines 92-153), run against the observation stream `obs` (`t` is
the observation index).  The loop has no intrinsic bound, so it is embedded
with explicit `fuel`: `some attempts` means the loop exited by itself,
`none` means it was still running after `fuel` iterations.  Note that the
visible-button branch executes `continue` without touching `previousHeight`
or `scrollAttempts`. -/
def scrollRun (obs : Nat → ScrollObs) :
    Nat → Nat → Nat → Nat → Option Nat
  | 0, _, _, _ => none
  | fuel + 1, t, previousHeight, scrollAttempts =>
    if scrollAttempts < maxScrollAttempts then
      if (obs t).height = previousHeight then
        if (obs t).buttonVisible then
          scrollRun obs fuel (t + 1) previousHeight scrollAttempts
        else some scrollAttempts
      else scrollRun obs fuel (t + 1) (obs t).height (scrollAttempts + 1)
    else some scrollAttempts

/-- `scrollToLoadMore` started in its initial state
(`previousHeight = 0`, `scrollAttempts = 0`). -/
def scrollToLoadMore (obs : Nat → ScrollObs) (fuel : Nat) : Option Nat :=
  scrollRun obs fuel 0 0 0

/-! ### Lemmas about the string primitives -/

theorem isPre_iff (p l : Str) : isPre p l = true ↔ ∃ t, l = p ++ t := by
  induction p generalizing l with
  | nil => simp [isPre]
  | cons a as ih =>
    cases l with
    | nil => simp [isPre]
    | cons b bs =>
      simp only [isPre, Bool.and_eq_true, beq_iff_eq]
      constructor
      · rintro ⟨rfl, h⟩
        obtain ⟨t, rfl⟩ := (ih bs).1 h
        exact ⟨t, rfl⟩
      · rintro ⟨t, h⟩
        rw [List.cons_append] at h
        injection h with h1 h2
        exact ⟨h1.symm, (ih bs).2 ⟨t, h2⟩⟩

theorem hasSub_iff (nd s : Str) : hasSub nd s = true ↔ ∃ pre suf, s = pre ++ nd ++ suf := by
  induction s with
  | nil =>
    simp only [hasSub, isPre_iff]
    constructor
    · rintro ⟨t, h⟩
      exact ⟨[], t, h⟩
    · rintro ⟨pre, suf, h⟩
      rw [List.append_assoc] at h
      rcases List.append_eq_nil.1 h.symm with ⟨rfl, h2⟩
      exact ⟨suf, by simpa using h2.symm⟩
  | cons c rest ih =>
    simp only [hasSub, Bool.or_eq_true, isPre_iff, ih]
    constructor
    · rintro (⟨t, h⟩ | ⟨pre, suf, h⟩)
      · exact ⟨[], t, by simpa using h⟩
      · exact ⟨c :: pre, suf, by simp [h]⟩
    · rintro ⟨pre, suf, h⟩
      cases pre with
      | nil => exact Or.inl ⟨suf, by simpa using h⟩
      | cons p ps =>
        simp only [List.cons_append] at h
        injection h with h1 h2
        exact Or.inr ⟨ps, suf, h2⟩

theorem jsSplit_ne_nil (sep : Char) (s : Str) : jsSplit sep s ≠ [] := by
  cases s with
  | nil => simp [jsSplit]
  | cons c rest =>
    simp only [jsSplit]
    split
    · simp
    · split <;> simp

theorem jsSplit_of_not_mem (sep : Char) (s : Str) (h : sep ∉ s) :
    jsSplit sep s = [s] := by
  induction s with
  | nil => rfl
  | cons c rest ih =>
    have hc : ¬c = sep := fun hc => h (hc ▸ List.mem_cons_self c rest)
    have hr : sep ∉ rest := fun hr => h (List.mem_cons_of_mem c hr)
    simp only [jsSplit, if_neg hc, ih hr]

theorem two_le_length_jsSplit (sep : Char) (s : Str) (h : sep ∈ s) :
    2 ≤ (jsSplit sep s).length := by
  induction s with
  | nil => simp at h
  | cons c rest ih =>
    simp only [jsSplit]
    split
    · have h1 : 1 ≤ (jsSplit sep rest).length :=
        List.length_pos.2 (jsSplit_ne_nil sep rest)
      simpa using h1
    · rename_i hc
      have hr : sep ∈ rest := by
        rcases List.mem_cons.1 h with h1 | h1
        · exact absurd h1.symm hc
        · exact h1
      have h2 := ih hr
      split
      · rename_i heq
        rw [heq] at h2
        simp at h2
      · rename_i h0 t heq
        rw [heq] at h2
        simpa using h2

theorem splitPop_of_not_mem (sep : Char) (s : Str) (h : sep ∉ s) :
    splitPop sep s = s := by
  simp only [splitPop]
  rw [jsSplit_of_not_mem sep s h, List.getLastD_cons, List.getLastD_nil]

theorem splitPop_cons (sep c : Char) (rest : Str) :
    splitPop sep (c :: rest) =
      if c = sep then splitPop sep rest
      else if sep ∈ rest then splitPop sep rest else c :: rest := by
  by_cases hc : c = sep
  · rw [if_pos hc]
    simp only [splitPop, jsSplit, if_pos hc, List.getLastD_cons]
  · rw [if_neg hc]
    by_cases hm : sep ∈ rest
    · rw [if_pos hm]
      have h2 := two_le_length_jsSplit sep rest hm
      simp only [splitPop, jsSplit, if_neg hc]
      cases hr : jsSplit sep rest with
      | nil => exact absurd hr (jsSplit_ne_nil sep rest)
      | cons h t =>
        rw [hr] at h2
        cases t with
        | nil => simp at h2
        | cons t1 ts => simp only [List.getLastD_cons]
    · rw [if_neg hm]
      simp only [splitPop, jsSplit, if_neg hc, jsSplit_of_not_mem sep rest hm]
      rw [List.getLastD_cons, List.getLastD_nil]

theorem splitPop_spec (sep : Char) (s : Str) (h : sep ∈ s) :
    (∃ pre, s = pre ++ sep :: splitPop sep s) ∧ sep ∉ splitPop sep s := by
  induction s with
  | nil => simp at h
  | cons c rest ih =>
    rw [splitPop_cons]
    by_cases hc : c = sep
    · subst hc
      rw [if_pos rfl]
      by_cases hm : c ∈ rest
      · obtain ⟨⟨pre, hpre⟩, hnot⟩ := ih hm
        exact ⟨⟨c :: pre, by rw [List.cons_append, ← hpre]⟩, hnot⟩
      · rw [splitPop_of_not_mem c rest hm]
        exact ⟨⟨[], rfl⟩, hm⟩
    · have hm : sep ∈ rest := by
        rcases List.mem_cons.1 h with h1 | h1
        · exact absurd h1.symm hc
        · exact h1
      rw [if_neg hc, if_pos hm]
      obtain ⟨⟨pre, hpre⟩, hnot⟩ := ih hm
      exact ⟨⟨c :: pre, by rw [List.cons_append, ← hpre]⟩, hnot⟩

theorem jobsViewMatch_sound (s d : Str) (h : jobsViewMatch s = some d) :
    d ≠ [] ∧ (∀ c ∈ d, c.isDigit = true) ∧
      ∃ pre suf, s = pre ++ jobsViewLit ++ d ++ suf := by
  induction s with
  | nil => simp [jobsViewMatch] at h
  | cons c rest ih =>
    rw [jobsViewMatch] at h
    by_cases hp : isPre jobsViewLit (c :: rest) = true
    · rw [if_pos hp] at h
      obtain ⟨t, ht⟩ := (isPre_iff _ _).1 hp
      by_cases he : (((c :: rest).drop jobsViewLit.length).takeWhile Char.isDigit).isEmpty = true
      · rw [if_pos he] at h
        obtain ⟨hne, hdig, pre, suf, hs⟩ := ih h
        exact ⟨hne, hdig, c :: pre, suf, by rw [hs]; rfl⟩
      · rw [if_neg he] at h
        injection h with h
        have hdrop : (c :: rest).drop jobsViewLit.length = t := by
          rw [ht, List.drop_left]
        rw [hdrop] at he h
        subst h
        refine ⟨?_, ?_, [], t.dropWhile Char.isDigit, ?_⟩
        · intro hnil
          rw [hnil] at he
          simp at he
        · intro x hx
          exact List.mem_takeWhile_imp hx
        · rw [List.nil_append, ht, List.append_assoc,
            List.takeWhile_append_dropWhile]
    · rw [if_neg hp] at h
      obtain ⟨hne, hdig, pre, suf, hs⟩ := ih h
      exact ⟨hne, hdig, c :: pre, suf, by rw [hs]; rfl⟩

/-! ### Claim theorems -/

/-- C1: identifier extraction selects deterministically between exactly two
recognized forms: a string containing `urn:li:jobPosting:` yields the
trailing segment after the last colon, otherwise a string containing
`/jobs/view/` yields the numeric path segment matched by the regex
`/\/jobs\/view\/(\d+)/`, and any other form yields no identifier; in
particular `urn:li:jobPosting:3544610012` maps to `3544610012`,
`https://x.test/jobs/view/3544610012?ref=a` maps to `3544610012`, and
`https://x.test/other` maps to none. -/
theorem c1_identifier_extraction :
    extractLinkedInId (str "urn:li:jobPosting:3544610012") = some (str "3544610012") ∧
    extractLinkedInId (str "https://x.test/jobs/view/3544610012?ref=a") =
      some (str "3544610012") ∧
    extractLinkedInId (str "https://x.test/other") = none ∧
    (∀ s : Str, hasSub urnMarker s = true →
      extractLinkedInId s = some (splitPop ':' s) ∧
      (∃ pre, s = pre ++ ':' :: splitPop ':' s) ∧ ':' ∉ splitPop ':' s) ∧
    (∀ s : Str, hasSub urnMarker s = false → hasSub jobsViewLit s = true →
      extractLinkedInId s = jobsViewMatch s ∧
      ∀ d, jobsViewMatch s = some d →
        d ≠ [] ∧ (∀ c ∈ d, c.isDigit = true) ∧
        ∃ pre suf, s = pre ++ jobsViewLit ++ d ++ suf) ∧
    (∀ s : Str, hasSub urnMarker s = false → hasSub jobsViewLit s = false →
      extractLinkedInId s = none) := by
  refine ⟨by decide, by decide, by decide, ?_, ?_, ?_⟩
  · intro s hs
    have hmem : ':' ∈ s := by
      obtain ⟨pre, suf, rfl⟩ := (hasSub_iff _ _).1 hs
      have hu : ':' ∈ urnMarker := by decide
      exact List.mem_append.2 (Or.inl (List.mem_append.2 (Or.inr hu)))
    obtain ⟨hpre, hnot⟩ := splitPop_spec ':' s hmem
    exact ⟨by simp [extractLinkedInId, hs], hpre, hnot⟩
  · intro s h1 h2
    refine ⟨by simp [extractLinkedInId, h1, h2], ?_⟩
    intro d hd
    exact jobsViewMatch_sound s d hd
  · intro s h1 h2
    simp [extractLinkedInId, h1, h2]

/-- Witness for C1: the universally quantified clauses applied at a concrete
input. -/
theorem c1_identifier_extraction_witness :
    extractLinkedInId (str "urn:li:jobPosting:7") =
      some (splitPop ':' (str "urn:li:jobPosting:7")) :=
  (c1_identifier_extraction.2.2.2.1 (str "urn:li:jobPosting:7") (by decide)).1

/-- The boolean set-membership test of `deduplicateItems` agrees with
propositional membership in the mapped id list. -/
theorem deduplicateItems_eq_filter (S E : List DedupItem) :
    deduplicateItems S E =
      S.filter (fun x => decide (x.id ∉ E.map DedupItem.id)) := by
  simp only [deduplicateItems]
  apply List.filter_congr
  intro x _
  simp only [List.contains, List.elem_eq_mem, ← decide_not]

/-- Same fact for the `deduplicateJobs` variant. -/
theorem deduplicateJobs_eq_filter (S E : List JobRow) :
    deduplicateJobs S E =
      S.filter (fun x => decide (x.jobId ∉ E.map JobRow.jobId)) := by
  simp only [deduplicateJobs]
  apply List.filter_congr
  intro x _
  simp only [List.contains, List.elem_eq_mem, ← decide_not]

/-- C3: deduplication returns exactly the subsequence of the scraped list
whose id is absent from the ids of the existing list — membership is
characterized by exact id equality, the relative order of the scraped list
is preserved (sublist), the operation is idempotent, and `deduplicateJobs`
is the same filter over the `jobId` field.  The functions are pure, so
there are no side effects on either argument. -/
theorem c3_deduplication (S E : List DedupItem) :
    (∀ x, x ∈ deduplicateItems S E ↔ x ∈ S ∧ x.id ∉ E.map DedupItem.id) ∧
    (deduplicateItems S E).Sublist S ∧
    deduplicateItems (deduplicateItems S E) E = deduplicateItems S E ∧
    deduplicateItems S E = S.filter (fun x => decide (x.id ∉ E.map DedupItem.id)) ∧
    (∀ S2 E2 : List JobRow,
      deduplicateJobs S2 E2 =
        S2.filter (fun x => decide (x.jobId ∉ E2.map JobRow.jobId))) := by
  refine ⟨?_, ?_, ?_, deduplicateItems_eq_filter S E, deduplicateJobs_eq_filter⟩
  · intro x
    rw [deduplicateItems_eq_filter]
    simp [List.mem_filter]
  · rw [deduplicateItems_eq_filter]
    exact List.filter_sublist S
  · simp only [deduplicateItems_eq_filter, List.filter_filter]
    apply List.filter_congr
    intro x _
    simp

/-- Witness for C3: the filter characterization evaluated at a concrete
pair of lists. -/
theorem c3_deduplication_witness :
    deduplicateItems [⟨str "1", str "a"⟩, ⟨str "2", str "b"⟩] [⟨str "1", str "c"⟩] =
      List.filter
        (fun x => decide (x.id ∉ [DedupItem.mk (str "1") (str "c")].map DedupItem.id))
        [⟨str "1", str "a"⟩, ⟨str "2", str "b"⟩] :=
  (c3_deduplication [⟨str "1", str "a"⟩, ⟨str "2", str "b"⟩]
    [⟨str "1", str "c"⟩]).2.2.2.1

/-- C10: deduplication never removes intra-batch repeats — when the scraped
list contains two records with the same id and that id is absent from the
existing list, both occurrences survive in place. -/
theorem c10_intra_batch_duplicates_kept (S1 S2 S3 E : List DedupItem)
    (a b : DedupItem) (hab : a.id = b.id) (ha : a.id ∉ E.map DedupItem.id) :
    deduplicateItems (S1 ++ a :: (S2 ++ b :: S3)) E =
      deduplicateItems S1 E ++
        a :: (deduplicateItems S2 E ++ b :: deduplicateItems S3 E) := by
  have hb : b.id ∉ E.map DedupItem.id := hab ▸ ha
  have pa : (E.map DedupItem.id).contains a.id = false := by
    rw [List.contains, List.elem_eq_mem]
    exact decide_eq_false ha
  have pb : (E.map DedupItem.id).contains b.id = false := by
    rw [List.contains, List.elem_eq_mem]
    exact decide_eq_false hb
  have ha2 : ∀ x ∈ E, ¬x.id = a.id := by
    intro x hx hxa
    exact ha (List.mem_map.2 ⟨x, hx, hxa⟩)
  have hb2 : ∀ x ∈ E, ¬x.id = b.id := by
    intro x hx hxb
    exact hb (List.mem_map.2 ⟨x, hx, hxb⟩)
  simp only [deduplicateItems]
  simp [List.filter_append, List.filter_cons, pa, pb]
  rw [if_pos ha2, if_pos hb2]

/-- Witness for C10 at a concrete input: two records with id "1" both
survive deduplication against an existing list holding only id "2". -/
theorem c10_intra_batch_duplicates_kept_witness :
    deduplicateItems
        [⟨str "1", str "x"⟩, ⟨str "1", str "y"⟩] [⟨str "2", str "z"⟩] =
      [⟨str "1", str "x"⟩, ⟨str "1", str "y"⟩] := by
  have h := c10_intra_batch_duplicates_kept [] [] [] [⟨str "2", str "z"⟩]
      ⟨str "1", str "x"⟩ ⟨str "1", str "y"⟩ (by decide) (by decide)
  simpa using h

/-- C2: on any navigation, timeout or unexpected error, detail enrichment
returns the original basic record unchanged field-for-field — this holds for
the LinkedIn extractor and for the platform dispatcher. -/
theorem c2_enrichment_error_fallback (env : DetailEnv) (basicData : Record)
    (h : env.fails = true) :
    extractLinkedInDetailedData env basicData = basicData ∧
    extractDetailedData env basicData = basicData := by
  have h1 : extractLinkedInDetailedData env basicData = basicData := by
    simp [extractLinkedInDetailedData, h]
  refine ⟨h1, ?_⟩
  by_cases hp : basicData.source.platform = str "linkedin"
  · simp [extractDetailedData, hp, h1]
  · simp [extractDetailedData, hp]

/-- A detail-page environment in which the try block throws. -/
def failEnv : DetailEnv :=
  { fails := true, description := none, criteria := [], workplace := []
    applications := none, salary := none }

/-- Witness for C2: the fallback evaluated at a concrete failing
environment and record. -/
theorem c2_enrichment_error_fallback_witness :
    extractLinkedInDetailedData failEnv emptyRecord = emptyRecord ∧
    extractDetailedData failEnv emptyRecord = emptyRecord :=
  c2_enrichment_error_fallback failEnv emptyRecord rfl

/-- C7: a URL matching no platform pattern is detected as `none`, and
`scrapeFromUrl` then returns the empty batch without raising; conversely
detection tests the patterns in registration order, the first match
winning. -/
theorem c7_unsupported_url_skipped :
    (∀ (cfg : Config) (env : UrlEnv) (url : Str),
      detectPlatform url = none → scrapeFromUrl cfg env url = Except.ok []) ∧
    (∀ url : Str, detectPlatform url = none ↔
      patternTest (str "linkedin.com") url = false ∧
      patternTest (str "indeed.com") url = false) ∧
    (∀ url : Str, patternTest (str "linkedin.com") url = true →
      detectPlatform url = some Platform.linkedin) ∧
    (∀ url : Str, patternTest (str "linkedin.com") url = false →
      patternTest (str "indeed.com") url = true →
      detectPlatform url = some Platform.indeed) := by
  refine ⟨?_, ?_, ?_, ?_⟩
  · intro cfg env url h
    simp [scrapeFromUrl, h]
  · intro url
    cases h1 : patternTest (str "linkedin.com") url <;>
      cases h2 : patternTest (str "indeed.com") url <;>
      simp [detectPlatform, platformPatterns, List.find?, h1, h2]
  · intro url h1
    simp [detectPlatform, platformPatterns, List.find?, h1]
  · intro url h1 h2
    simp [detectPlatform, platformPatterns, List.find?, h1, h2]

/-- A configuration with representative values. -/
def cfgW : Config :=
  { maxItemsPerUrl := 2, totalItemsLimit := 5, concurrencyLimit := 3
    detailed := true, category := str "c" }

/-- A per-URL environment with no cards. -/
def envW : UrlEnv :=
  { newPageOk := true, navOk := true, now := str "now", cards := []
    detailEnv := fun _ => failEnv, schedule := [] }

/-- Witness for C7: an unsupported URL is skipped with an empty result. -/
theorem c7_unsupported_url_skipped_witness :
    scrapeFromUrl cfgW envW (str "https://x.test/other") = Except.ok [] :=
  c7_unsupported_url_skipped.1 cfgW envW (str "https://x.test/other") (by decide)

/-- An observation stream on which the page height never changes after the
first measurement and the "load more" control is visible on every check. -/
def stuckObs : Nat → ScrollObs := fun _ => { height := 5, buttonVisible := true }

/-- On the stuck stream, the loop state (previousHeight 5, one recorded
attempt) reproduces itself forever. -/
theorem scrollRun_stuck (fuel t : Nat) : scrollRun stuckObs fuel t 5 1 = none := by
  induction fuel generalizing t with
  | zero => rfl
  | succ n ih => simpa [scrollRun, stuckObs, maxScrollAttempts] using ih (t + 1)

/-- C5 (refuting the 20-iteration ceiling): on a page whose content height
never stabilizes differently and whose "load more" control is found on
every check, `scrollToLoadMore` never exits — for every iteration budget it
is still running, because the visible-button branch re-enters the loop
without incrementing `scrollAttempts`. -/
theorem c5_scroll_loop_nontermination (fuel : Nat) :
    scrollToLoadMore stuckObs fuel = none := by
  cases fuel with
  | zero => rfl
  | succ n =>
    simpa [scrollToLoadMore, scrollRun, stuckObs, maxScrollAttempts] using
      scrollRun_stuck n 1

/-! ### Lemmas about the multi-URL loop -/

/-- Once session acquisition is behind (a browser already existed or
`initBrowser` succeeded), the call runs the loop, cleans up and returns
normally. -/
theorem scrapeMultipleUrls_ok (cfg : Config) (menv : MultiEnv) (br0 : Bool)
    (urls : List Str) (hinit : br0 = true ∨ menv.init = InitOutcome.ok) :
    scrapeMultipleUrls cfg menv br0 urls =
      { result := Except.ok (scrapeLoop cfg menv urls 0 [])
        cleanupRan := true, browserOpen := false, contextSet := false } := by
  rcases hinit with h | h
  · simp [scrapeMultipleUrls, h]
  · cases br0 with
    | true => simp [scrapeMultipleUrls]
    | false => simp [scrapeMultipleUrls, h]

/-- When the batches of the processed URLs reach the global cap, the loop
stops at the crossing URL with exactly `totalItemsLimit` records, and
appending further URLs changes nothing. -/
theorem scrapeLoop_cap (cfg : Config) (menv : MultiEnv) :
    ∀ (urls : List Str) (bss : List (List Record)) (i : Nat) (acc : List Record),
      bss.length = urls.length →
      (∀ k, k < urls.length →
        scrapeFromUrl cfg (menv.urlEnvs (i + k)) (urls.getD k []) =
          Except.ok (bss.getD k [])) →
      acc.length < cfg.totalItemsLimit →
      cfg.totalItemsLimit ≤ acc.length + bss.flatten.length →
      (∀ extra, scrapeLoop cfg menv (urls ++ extra) i acc = scrapeLoop cfg menv urls i acc) ∧
      (scrapeLoop cfg menv urls i acc).length = cfg.totalItemsLimit := by
  intro urls
  induction urls with
  | nil =>
    intro bss i acc hlen hok hlt hge
    have hb : bss = [] := List.length_eq_zero.1 hlen
    subst hb
    simp only [List.flatten_nil, List.length_nil, Nat.add_zero] at hge
    omega
  | cons u rest ih =>
    intro bss i acc hlen hok hlt hge
    cases bss with
    | nil => simp at hlen
    | cons b brest =>
      have h0 := hok 0 (by simp)
      rw [Nat.add_zero] at h0
      simp only [List.getD_cons_zero] at h0
      by_cases hcap : cfg.totalItemsLimit ≤ (acc ++ b).length
      · constructor
        · intro extra
          simp only [List.cons_append, scrapeLoop, h0, if_pos hcap]
        · simp only [scrapeLoop, h0, if_pos hcap, List.length_take]
          omega
      · have hlen2 : brest.length = rest.length := by simpa using hlen
        have hok2 : ∀ k, k < rest.length →
            scrapeFromUrl cfg (menv.urlEnvs (i + 1 + k)) (rest.getD k []) =
              Except.ok (brest.getD k []) := by
          intro k hk
          have hs := hok (k + 1) (by simpa using Nat.succ_lt_succ hk)
          have hi : i + (k + 1) = i + 1 + k := by omega
          rw [hi] at hs
          simpa using hs
        have hlt2 : (acc ++ b).length < cfg.totalItemsLimit := by omega
        have hge2 : cfg.totalItemsLimit ≤ (acc ++ b).length + brest.flatten.length := by
          simp only [List.flatten_cons, List.length_append] at hge ⊢
          omega
        obtain ⟨hex, hlen3⟩ := ih brest (i + 1) (acc ++ b) hlen2 hok2 hlt2 hge2
        constructor
        · intro extra
          simp only [List.cons_append, scrapeLoop, h0, if_neg hcap]
          exact hex extra
        · simp only [scrapeLoop, h0, if_neg hcap]
          exact hlen3

/-- When every processed URL succeeds, the loop result is a prefix of the
URL-ordered concatenation of the batches. -/
theorem scrapeLoop_prefix (cfg : Config) (menv : MultiEnv) :
    ∀ (urls : List Str) (bss : List (List Record)) (i : Nat) (acc : List Record),
      bss.length = urls.length →
      (∀ k, k < urls.length →
        scrapeFromUrl cfg (menv.urlEnvs (i + k)) (urls.getD k []) =
          Except.ok (bss.getD k [])) →
      ∃ t, scrapeLoop cfg menv urls i acc ++ t = acc ++ bss.flatten := by
  intro urls
  induction urls with
  | nil =>
    intro bss i acc hlen _
    have hb : bss = [] := List.length_eq_zero.1 hlen
    subst hb
    exact ⟨[], by simp [scrapeLoop]⟩
  | cons u rest ih =>
    intro bss i acc hlen hok
    cases bss with
    | nil => simp at hlen
    | cons b brest =>
      have h0 := hok 0 (by simp)
      rw [Nat.add_zero] at h0
      simp only [List.getD_cons_zero] at h0
      have hlen2 : brest.length = rest.length := by simpa using hlen
      have hok2 : ∀ k, k < rest.length →
          scrapeFromUrl cfg (menv.urlEnvs (i + 1 + k)) (rest.getD k []) =
            Except.ok (brest.getD k []) := by
        intro k hk
        have hs := hok (k + 1) (by simpa using Nat.succ_lt_succ hk)
        have hi : i + (k + 1) = i + 1 + k := by omega
        rw [hi] at hs
        simpa using hs
      by_cases hcap : cfg.totalItemsLimit ≤ (acc ++ b).length
      · refine ⟨(acc ++ b).drop cfg.totalItemsLimit ++ brest.flatten, ?_⟩
        simp only [scrapeLoop, h0, if_pos hcap, List.flatten_cons]
        rw [← List.append_assoc, List.take_append_drop, List.append_assoc]
      · obtain ⟨t, ht⟩ := ih brest (i + 1) (acc ++ b) hlen2 hok2
        refine ⟨t, ?_⟩
        simp only [scrapeLoop, h0, if_neg hcap, List.flatten_cons]
        rw [ht, List.append_assoc]

/-- When the first failing URL is reached below the cap, the loop returns
exactly the records gathered from the preceding URLs. -/
theorem scrapeLoop_err (cfg : Config) (menv : MultiEnv) :
    ∀ (us : List Str) (bss : List (List Record)) (u : Str) (rest : List Str)
      (i : Nat) (acc : List Record),
      bss.length = us.length →
      (∀ k, k < us.length →
        scrapeFromUrl cfg (menv.urlEnvs (i + k)) (us.getD k []) =
          Except.ok (bss.getD k [])) →
      scrapeFromUrl cfg (menv.urlEnvs (i + us.length)) u = Except.error () →
      acc.length + bss.flatten.length < cfg.totalItemsLimit →
      scrapeLoop cfg menv (us ++ u :: rest) i acc = acc ++ bss.flatten := by
  intro us
  induction us with
  | nil =>
    intro bss u rest i acc hlen _ herr hlt
    have hb : bss = [] := List.length_eq_zero.1 hlen
    subst hb
    simp only [List.length_nil, Nat.add_zero] at herr
    simp only [List.nil_append, scrapeLoop, herr, List.flatten_nil, List.append_nil]
  | cons v vs ih =>
    intro bss u rest i acc hlen hok herr hlt
    cases bss with
    | nil => simp at hlen
    | cons b brest =>
      have h0 := hok 0 (by simp)
      rw [Nat.add_zero] at h0
      simp only [List.getD_cons_zero] at h0
      have hcap : ¬cfg.totalItemsLimit ≤ (acc ++ b).length := by
        simp only [List.flatten_cons, List.length_append] at hlt
        simp only [List.length_append]
        omega
      have hok2 : ∀ k, k < vs.length →
          scrapeFromUrl cfg (menv.urlEnvs (i + 1 + k)) (vs.getD k []) =
            Except.ok (brest.getD k []) := by
        intro k hk
        have hs := hok (k + 1) (by simpa using Nat.succ_lt_succ hk)
        have hi : i + (k + 1) = i + 1 + k := by omega
        rw [hi] at hs
        simpa using hs
      have herr2 : scrapeFromUrl cfg (menv.urlEnvs (i + 1 + vs.length)) u =
          Except.error () := by
        have hi : i + (v :: vs).length = i + 1 + vs.length := by simp; omega
        rw [hi] at herr
        exact herr
      have hlt2 : (acc ++ b).length + brest.flatten.length < cfg.totalItemsLimit := by
        simp only [List.flatten_cons, List.length_append] at hlt
        simp only [List.length_append]
        omega
      have hlen2 : brest.length = vs.length := by simpa using hlen
      simp only [List.cons_append, scrapeLoop, h0, if_neg hcap, List.flatten_cons]
      rw [show vs.append (u :: rest) = vs ++ u :: rest from rfl,
        ih brest u rest (i + 1) (acc ++ b) hlen2 hok2 herr2 hlt2, List.append_assoc]

/-- C4: the global cap — once the batches produced across the URLs exceed
`totalItemsLimit`, the returned sequence has exactly `totalItemsLimit`
records and URLs past the crossing point are never processed (appending
further URLs leaves the whole observable outcome unchanged). -/
theorem c4_global_cap (cfg : Config) (menv : MultiEnv) (br0 : Bool) (urls : List Str)
    (bss : List (List Record))
    (hinit : br0 = true ∨ menv.init = InitOutcome.ok)
    (hlen : bss.length = urls.length)
    (hok : ∀ k, k < urls.length →
      scrapeFromUrl cfg (menv.urlEnvs k) (urls.getD k []) = Except.ok (bss.getD k []))
    (hcap : cfg.totalItemsLimit < bss.flatten.length) :
    ∃ r, (scrapeMultipleUrls cfg menv br0 urls).result = Except.ok r ∧
      r.length = cfg.totalItemsLimit ∧
      ∀ extra, scrapeMultipleUrls cfg menv br0 (urls ++ extra) =
        scrapeMultipleUrls cfg menv br0 urls := by
  have hok0 : ∀ k, k < urls.length →
      scrapeFromUrl cfg (menv.urlEnvs (0 + k)) (urls.getD k []) =
        Except.ok (bss.getD k []) := by
    intro k hk
    simpa [Nat.zero_add] using hok k hk
  by_cases hN : cfg.totalItemsLimit = 0
  · cases urls with
    | nil =>
      have hb : bss = [] := List.length_eq_zero.1 hlen
      subst hb
      simp [hN] at hcap
    | cons u rest =>
      cases bss with
      | nil => simp at hlen
      | cons b brest =>
        have h0 := hok 0 (by simp)
        simp only [List.getD_cons_zero] at h0
        have hrun : ∀ rest2, scrapeLoop cfg menv (u :: rest2) 0 [] = [] := by
          intro rest2
          simp only [scrapeLoop, h0]
          rw [if_pos (by omega), hN]
          simp
        refine ⟨[], ?_, by simp [hN], ?_⟩
        · rw [scrapeMultipleUrls_ok cfg menv br0 (u :: rest) hinit, hrun rest]
        · intro extra
          rw [scrapeMultipleUrls_ok cfg menv br0 ((u :: rest) ++ extra) hinit,
            scrapeMultipleUrls_ok cfg menv br0 (u :: rest) hinit,
            List.cons_append, hrun (rest ++ extra), hrun rest]
  · obtain ⟨hex, hlen2⟩ := scrapeLoop_cap cfg menv urls bss 0 [] hlen hok0
      (by simp only [List.length_nil]; omega)
      (by simp only [List.length_nil, Nat.zero_add]; omega)
    refine ⟨scrapeLoop cfg menv urls 0 [], ?_, hlen2, ?_⟩
    · rw [scrapeMultipleUrls_ok cfg menv br0 urls hinit]
    · intro extra
      rw [scrapeMultipleUrls_ok cfg menv br0 (urls ++ extra) hinit,
        scrapeMultipleUrls_ok cfg menv br0 urls hinit, hex extra]

/-- C6 (amended): no partial failure raises — whenever session acquisition
is behind, the call returns normally, and a failing URL below the cap
yields exactly the records gathered from the preceding URLs; the only
failures that propagate are the session-acquisition ones, and for those the
cleanup block does not run: a pure launch failure leaves no browser
reference, while a context-creation failure after a successful launch
leaves the launched browser open. -/
theorem c6_partial_failure_isolation (cfg : Config) (menv : MultiEnv) (br0 : Bool) :
    (∀ urls : List Str, (br0 = true ∨ menv.init = InitOutcome.ok) →
      ∃ r, (scrapeMultipleUrls cfg menv br0 urls).result = Except.ok r) ∧
    (∀ (us : List Str) (u : Str) (rest : List Str) (bss : List (List Record)),
      (br0 = true ∨ menv.init = InitOutcome.ok) →
      bss.length = us.length →
      (∀ k, k < us.length →
        scrapeFromUrl cfg (menv.urlEnvs k) (us.getD k []) = Except.ok (bss.getD k [])) →
      scrapeFromUrl cfg (menv.urlEnvs us.length) u = Except.error () →
      bss.flatten.length < cfg.totalItemsLimit →
      (scrapeMultipleUrls cfg menv br0 (us ++ u :: rest)).result =
        Except.ok bss.flatten) ∧
    (br0 = false → menv.init = InitOutcome.launchFail → ∀ urls : List Str,
      (scrapeMultipleUrls cfg menv br0 urls).result = Except.error () ∧
      (scrapeMultipleUrls cfg menv br0 urls).cleanupRan = false ∧
      (scrapeMultipleUrls cfg menv br0 urls).browserOpen = false) ∧
    (br0 = false → menv.init = InitOutcome.contextFail → ∀ urls : List Str,
      (scrapeMultipleUrls cfg menv br0 urls).result = Except.error () ∧
      (scrapeMultipleUrls cfg menv br0 urls).cleanupRan = false ∧
      (scrapeMultipleUrls cfg menv br0 urls).browserOpen = true) := by
  refine ⟨?_, ?_, ?_, ?_⟩
  · intro urls hinit
    exact ⟨_, by rw [scrapeMultipleUrls_ok cfg menv br0 urls hinit]⟩
  · intro us u rest bss hinit hlen hok herr hlt
    rw [scrapeMultipleUrls_ok cfg menv br0 (us ++ u :: rest) hinit]
    have hok0 : ∀ k, k < us.length →
        scrapeFromUrl cfg (menv.urlEnvs (0 + k)) (us.getD k []) =
          Except.ok (bss.getD k []) := by
      intro k hk
      simpa [Nat.zero_add] using hok k hk
    have herr0 : scrapeFromUrl cfg (menv.urlEnvs (0 + us.length)) u =
        Except.error () := by
      simpa [Nat.zero_add] using herr
    rw [scrapeLoop_err cfg menv us bss u rest 0 [] hlen hok0 herr0
      (by simpa using hlt)]
    simp
  · intro h1 h2 urls
    subst h1
    simp [scrapeMultipleUrls, h2]
  · intro h1 h2 urls
    subst h1
    simp [scrapeMultipleUrls, h2]

/-- A multi-URL environment whose browser launch fails. -/
def launchFailEnv : MultiEnv :=
  { init := InitOutcome.launchFail, urlEnvs := fun _ => envW }

/-- A multi-URL environment whose context creation fails after the browser
launched. -/
def contextFailEnv : MultiEnv :=
  { init := InitOutcome.contextFail, urlEnvs := fun _ => envW }

/-- Counterexample to C6 as stated: when the browser launch fails, the
error does propagate but the session-close cleanup block does not run
(`initBrowser` is invoked before the `try`). -/
theorem c6_partial_failure_isolation_counterexample :
    (scrapeMultipleUrls cfgW launchFailEnv false []).result = Except.error () ∧
    (scrapeMultipleUrls cfgW launchFailEnv false []).cleanupRan = false :=
  ⟨rfl, rfl⟩

/-- Witness for C6: a call that already holds a browser returns normally. -/
theorem c6_partial_failure_isolation_witness :
    ∃ r, (scrapeMultipleUrls cfgW launchFailEnv true [str "u"]).result =
      Except.ok r :=
  (c6_partial_failure_isolation cfgW launchFailEnv true).1 [str "u"] (Or.inl rfl)

/-- C9 (amended): after every invocation that gets past session acquisition
— success or failure inside the loop — the session is closed, the cleanup
block ran, and the browser and context references are cleared. -/
theorem c9_session_closed_after_acquisition (cfg : Config) (menv : MultiEnv)
    (br0 : Bool) (urls : List Str)
    (hinit : br0 = true ∨ menv.init = InitOutcome.ok) :
    (scrapeMultipleUrls cfg menv br0 urls).browserOpen = false ∧
    (scrapeMultipleUrls cfg menv br0 urls).contextSet = false ∧
    (scrapeMultipleUrls cfg menv br0 urls).cleanupRan = true := by
  rw [scrapeMultipleUrls_ok cfg menv br0 urls hinit]
  exact ⟨rfl, rfl, rfl⟩

/-- Counterexample to C9 as stated: when context creation fails after the
browser launched, the call returns with the launched browser still open and
referenced — a post-call state with an open session is reachable. -/
theorem c9_session_closed_counterexample :
    (scrapeMultipleUrls cfgW contextFailEnv false [str "https://linkedin.com/jobs"]).result =
      Except.error () ∧
    (scrapeMultipleUrls cfgW contextFailEnv false
      [str "https://linkedin.com/jobs"]).browserOpen = true :=
  ⟨rfl, rfl⟩

/-- Witness for C9: the amended cleanup guarantee at a concrete input. -/
theorem c9_session_closed_after_acquisition_witness :
    (scrapeMultipleUrls cfgW contextFailEnv true []).browserOpen = false ∧
    (scrapeMultipleUrls cfgW contextFailEnv true []).contextSet = false ∧
    (scrapeMultipleUrls cfgW contextFailEnv true []).cleanupRan = true :=
  c9_session_closed_after_acquisition cfgW contextFailEnv true [] (Or.inl rfl)

/-! ### Positional reassembly of concurrent completions -/

/-- In the completion sequence of the tasks, the lookup for index `j` finds
the task `j` itself, wherever it completed. -/
theorem find_in_schedule (task : Nat → Record) :
    ∀ (σ : List Nat) (j : Nat), j ∈ σ →
      (σ.map (fun i => (i, task i))).find? (fun e => e.1 == j) =
        some (j, task j) := by
  intro σ
  induction σ with
  | nil =>
    intro j h
    simp at h
  | cons i σ ih =>
    intro j hj
    by_cases hij : i = j
    · subst hij
      simp [List.find?]
    · have hj2 : j ∈ σ := by
        rcases List.mem_cons.1 hj with h | h
        · exact absurd h.symm hij
        · exact h
      have hbeq : (i == j) = false := beq_false_of_ne hij
      simp only [List.map_cons, List.find?]
      rw [hbeq]
      exact ih j hj2

/-- `Promise.all` reassembles by task index: as long as every index below
`n` completes somewhere in the schedule, the assembled list is the
submission-ordered list of task results, independent of completion order. -/
theorem assemble_eq_map_range (task : Nat → Record) (σ : List Nat) (n : Nat)
    (hσ : ∀ j, j < n → j ∈ σ) :
    assemble n (σ.map (fun i => (i, task i))) emptyRecord =
      (List.range n).map task := by
  simp only [assemble]
  apply List.map_congr_left
  intro j hj
  rw [find_in_schedule task σ j (hσ j (List.mem_range.1 hj))]
  rfl

/-- Reading back a position of a mapped range. -/
theorem getD_map_range (f : Nat → Record) (n j : Nat) (hj : j < n) (d : Record) :
    ((List.range n).map f).getD j d = f j := by
  rw [List.getD_eq_getElem?_getD, List.getElem?_map, List.getElem?_range hj]
  rfl

/-- C8: ordering — the accumulated result of `scrapeMultipleUrls` is a
prefix of the URL-ordered concatenation of the per-URL batches, and within
one URL the enriched output is assembled positionally: whatever the
completion order of the concurrent enrichment tasks, the j-th output is
the enrichment of the j-th basic record. -/
theorem c8_ordering (cfg : Config) (menv : MultiEnv) (br0 : Bool) (urls : List Str)
    (bss : List (List Record))
    (hinit : br0 = true ∨ menv.init = InitOutcome.ok)
    (hlen : bss.length = urls.length)
    (hok : ∀ k, k < urls.length →
      scrapeFromUrl cfg (menv.urlEnvs k) (urls.getD k []) = Except.ok (bss.getD k [])) :
    (∃ r, (scrapeMultipleUrls cfg menv br0 urls).result = Except.ok r ∧
      ∃ t, r ++ t = bss.flatten) ∧
    (∀ (env : UrlEnv) (url : Str),
      detectPlatform url = some Platform.linkedin →
      env.newPageOk = true → env.navOk = true → cfg.detailed = true →
      (∀ j, j < (basicsOf cfg env Platform.linkedin).length → j ∈ env.schedule) →
      ∃ items, scrapeFromUrl cfg env url = Except.ok items ∧
        items.length = (basicsOf cfg env Platform.linkedin).length ∧
        ∀ j, j < items.length →
          items.getD j emptyRecord =
            extractDetailedData (env.detailEnv j)
              ((basicsOf cfg env Platform.linkedin).getD j emptyRecord)) := by
  constructor
  · have hok0 : ∀ k, k < urls.length →
        scrapeFromUrl cfg (menv.urlEnvs (0 + k)) (urls.getD k []) =
          Except.ok (bss.getD k []) := by
      intro k hk
      simpa [Nat.zero_add] using hok k hk
    obtain ⟨t, ht⟩ := scrapeLoop_prefix cfg menv urls bss 0 [] hlen hok0
    refine ⟨scrapeLoop cfg menv urls 0 [], ?_, t, by simpa using ht⟩
    rw [scrapeMultipleUrls_ok cfg menv br0 urls hinit]
  · intro env url hdet hpage hnav hdetail hsched
    have hassem := assemble_eq_map_range
      (fun i => extractDetailedData (env.detailEnv i)
        ((basicsOf cfg env Platform.linkedin).getD i emptyRecord))
      env.schedule (basicsOf cfg env Platform.linkedin).length hsched
    refine ⟨(List.range (basicsOf cfg env Platform.linkedin).length).map
      (fun i => extractDetailedData (env.detailEnv i)
        ((basicsOf cfg env Platform.linkedin).getD i emptyRecord)), ?_, ?_, ?_⟩
    · simp only [scrapeFromUrl, hdet, hpage, hnav, hdetail, Bool.not_true,
        Bool.false_eq_true, if_false, if_true]
      rw [hassem]
    · simp
    · intro j hj
      simp only [List.length_map, List.length_range] at hj
      rw [getD_map_range _ _ _ hj]

/-- A fully readable job card. -/
def cardW : Card :=
  { linkHref := some (some (str "urn:li:jobPosting:9"))
    linkText := str "T"
    companyText := some (str "C")
    companyHref := none
    locationText := some (str "L")
    timeText := some (str "ago")
    timeDatetime := none }

/-- The basic record extracted from `cardW`. -/
def recW : Record :=
  { id := some (str "9")
    title := str "T"
    url := str "urn:li:jobPosting:9"
    description := []
    location := str "L"
    publishedAt := none
    scrapedAt := str "now"
    source := { platform := str "linkedin", typ := str "job", category := str "k" }
    organization := { name := str "C", url := none, id := [] }
    details := { postedTime := str "ago", contractType := none
                 experienceLevel := none, workType := none, industry := none
                 applicationsCount := none, salary := none } }

/-- A configuration with a global cap of one record and enrichment off. -/
def cfgC4 : Config :=
  { maxItemsPerUrl := 5, totalItemsLimit := 1, concurrencyLimit := 3
    detailed := false, category := str "k" }

/-- A per-URL environment presenting one readable card. -/
def envC4 : UrlEnv :=
  { newPageOk := true, navOk := true, now := str "now", cards := [cardW]
    detailEnv := fun _ => failEnv, schedule := [0] }

/-- A healthy multi-URL environment over `envC4`. -/
def menvC4 : MultiEnv := { init := InitOutcome.ok, urlEnvs := fun _ => envC4 }

/-- Two listing URLs of the supported platform. -/
def urlsC4 : List Str := [str "https://linkedin.com/a", str "https://linkedin.com/b"]

/-- Witness for C4: two URLs producing one record each against a cap of one
yield exactly one record. -/
theorem c4_global_cap_witness :
    ∃ r, (scrapeMultipleUrls cfgC4 menvC4 true urlsC4).result = Except.ok r ∧
      r.length = 1 := by
  have hok : ∀ k, k < urlsC4.length →
      scrapeFromUrl cfgC4 (menvC4.urlEnvs k) (urlsC4.getD k []) =
        Except.ok ([[recW], [recW]].getD k []) := by
    intro k hk
    simp only [urlsC4, List.length_cons, List.length_nil] at hk
    exact match k, hk with
      | 0, _ => rfl
      | 1, _ => rfl
      | n + 2, h => absurd h (by omega)
  obtain ⟨r, h1, h2, _⟩ := c4_global_cap cfgC4 menvC4 true urlsC4 [[recW], [recW]]
    (Or.inl rfl) rfl hok (by decide)
  exact ⟨r, h1, h2⟩

/-- A configuration with enrichment on and a high cap. -/
def cfgC8 : Config :=
  { maxItemsPerUrl := 5, totalItemsLimit := 50, concurrencyLimit := 3
    detailed := true, category := str "k" }

/-- A per-URL environment with one card and a one-task schedule. -/
def envC8 : UrlEnv :=
  { newPageOk := true, navOk := true, now := str "now", cards := [cardW]
    detailEnv := fun _ => failEnv, schedule := [0] }

/-- Witness for C8: the within-URL positional clause at a concrete
environment. -/
theorem c8_ordering_witness :
    ∃ items, scrapeFromUrl cfgC8 envC8 (str "https://linkedin.com/jobs") =
      Except.ok items ∧
      items.length = (basicsOf cfgC8 envC8 Platform.linkedin).length := by
  have hsched : ∀ j, j < (basicsOf cfgC8 envC8 Platform.linkedin).length →
      j ∈ envC8.schedule := by
    intro j hj
    have hlen : (basicsOf cfgC8 envC8 Platform.linkedin).length = 1 := rfl
    rw [hlen] at hj
    have hj0 : j = 0 := by omega
    subst hj0
    show (0 : Nat) ∈ envC8.schedule
    simp [envC8]
  obtain ⟨items, h1, h2, _⟩ :=
    (c8_ordering cfgC8 ⟨InitOutcome.ok, fun _ => envC8⟩ true [] [] (Or.inl rfl) rfl
      (fun k hk => absurd hk (Nat.not_lt_zero k))).2 envC8
      (str "https://linkedin.com/jobs") rfl rfl rfl rfl hsched
  exact ⟨items, h1, h2⟩

end Scraper
